import Mathlib

/-!
Shallow embedding of `src/rank_order.py`: a batch tool that extracts
per-course rank columns from a spreadsheet and aggregates them into a
sorted summary.  Cell values are modelled exactly (numeric, text, blank),
numeric ranks by rationals, missing values by `Option`, and the pandas
stable sort (`kind="mergesort"`, NaN placed last) by `List.mergeSort`
with an explicit key order.
-/

namespace RankOrder

/-- A spreadsheet cell as seen by the extractor: a numeric value, a free
text string, or an empty cell (read as NaN by the reader). -/
inductive Cell : Type where
  | num (q : ℚ)
  | text (s : String)
  | blank
deriving DecidableEq

/-- Strip of leading and trailing whitespace, as Python `str.strip()`. -/
def listTrim (cs : List Char) : List Char :=
  ((cs.dropWhile Char.isWhitespace).reverse.dropWhile Char.isWhitespace).reverse

/-- Value of a digit string, most significant first. -/
def digitsVal (cs : List Char) : ℕ :=
  cs.foldl (fun a c => a * 10 + (c.toNat - 48)) 0

/-- Whether a character list is a nonempty run of decimal digits. -/
def allDigits (cs : List Char) : Bool :=
  !cs.isEmpty && cs.all Char.isDigit

/-- Modelled from the spec: the numeric parse applied to a text cell
(the library routine behind the coercion at line 70 is not in `src/`);
per the spec each cell "is parsed as a number; parse failure or emptiness
yields an absent value".  An optional sign, an integer part and an
optional decimal fraction parse; anything else fails. -/
def parseNumber (s : String) : Option ℚ :=
  let t := listTrim s.data
  let signBody : ℚ × List Char :=
    match t with
    | '-' :: rest => (-1, rest)
    | '+' :: rest => (1, rest)
    | _ => (1, t)
  let sgn := signBody.1
  let body := signBody.2
  let intPart := body.takeWhile (fun c => c ≠ '.')
  match body.dropWhile (fun c => c ≠ '.') with
  | [] =>
      if allDigits intPart then some (sgn * digitsVal intPart) else none
  | '.' :: frac =>
      if allDigits intPart && allDigits frac then
        some (sgn * ((digitsVal intPart : ℚ) + digitsVal frac / 10 ^ frac.length))
      else none
  | _ => none

/-- Coercion of one cell to a numeric rank, as in
`rank_df.apply(pd.to_numeric, errors="coerce")` (line 70): a numeric
cell keeps its value, a blank cell is absent, a text cell is parsed and
parse failure degrades to absent.  Total: no error outcome exists. -/
def to_numeric_coerce : Cell → Option ℚ
  | .num q => some q
  | .text s => parseNumber s
  | .blank => none

/-- Student responses start on Excel row 4 (0-based index 3). -/
def DATA_START_ROW_IDX : ℕ := 3

/-- Static column-letter to course-name table (lines 16-25). -/
def COURSE_COLUMN_MAP : List (String × String) :=
  [("L", "ACC 6060 Professionalism and Leadership"),
   ("M", "ACC 6300 Data Analytics"),
   ("N", "ACC 6400 Advanced Tax Business Entities"),
   ("O", "ACC 6510 Financial Audit"),
   ("P", "ACC 6540 Professional Ethics"),
   ("Q", "ACC 6560 Financial Theory & Research I"),
   ("R", "ACC 6350 Management Control Systems"),
   ("S", "ACC 6600 Business Law for Accountants")]

/-- Uppercased-and-trimmed character list of a column-letter string,
mirroring `col_letters.strip().upper()` (line 45). -/
def cleanCols (s : String) : List Char :=
  (listTrim s.data).map Char.toUpper

/-- Step of the base-26 accumulation `idx = idx * 26 + (ord(ch) - ord("A") + 1)`. -/
def colStep (idx : ℕ) (ch : Char) : ℕ :=
  idx * 26 + (ch.toNat - 'A'.toNat + 1)

/-- One-based bijective base-26 value of a letter list (lines 49-51). -/
def colVal (cs : List Char) : ℕ :=
  cs.foldl colStep 0

/-- Translation of `excel_col_to_index` (lines 44-52): strip and
uppercase, reject the empty string and any character outside A-Z with a
ValueError, otherwise return the zero-based column index. -/
def excel_col_to_index (col_letters : String) : Except String ℕ :=
  let cs := cleanCols col_letters
  if cs.isEmpty || cs.any (fun ch => !('A' ≤ ch && ch ≤ 'Z')) then
    .error ("Invalid Excel column letters: " ++ String.mk cs)
  else
    .ok (colVal cs - 1)

/-- Rank column letters, in map insertion order (line 60). -/
def rank_col_letters : List String :=
  COURSE_COLUMN_MAP.map Prod.fst

/-- Zero-based indices of the rank columns (line 61); each letter in the
static map converts without error. -/
def rank_col_indices : List ℕ :=
  rank_col_letters.filterMap (fun l => (excel_col_to_index l).toOption)

/-- Course display names, in map insertion order (line 62). -/
def course_names : List String :=
  COURSE_COLUMN_MAP.map Prod.snd

/-- A RankTable: course name mapped to the column of optional ranks, in
insertion order, one entry per kept respondent row. -/
abbrev RankTable := List (String × List (Option ℚ))

/-- One respondent row restricted to the rank columns and coerced to
numbers (lines 65-70); a cell beyond the row's width reads as blank,
as the rectangular frame pads short rows with NaN. -/
def extractRow (row : List Cell) : List (Option ℚ) :=
  rank_col_indices.map (fun i => to_numeric_coerce (row.getD i Cell.blank))

/-- Result triple of `load_rank_data` (line 77). -/
structure LoadResult where
  rank_df : RankTable
  total_rows_after_row4 : ℕ
  rows_dropped_all_blank : ℕ
deriving DecidableEq

/-- Whether a coerced row has at least one present value; `dropna(how="all")`
(line 73) keeps exactly these rows. -/
def rowHasValue (r : List (Option ℚ)) : Bool :=
  r.any (fun v => v.isSome)

/-- Translation of the data part of `load_rank_data` (lines 59-77):
take the rows from index 3 on, select and coerce the rank columns,
drop rows whose every rank cell is absent, and report the pre-drop row
count and the number of dropped rows. -/
def load_rank_data (raw : List (List Cell)) : LoadResult :=
  let coerced := (raw.drop DATA_START_ROW_IDX).map extractRow
  let total_rows_after_row4 := coerced.length
  let kept := coerced.filter rowHasValue
  let rows_dropped_all_blank := total_rows_after_row4 - kept.length
  { rank_df := (course_names.enum.map
      (fun p => (p.2, kept.map (fun r => r.getD p.1 none)))),
    total_rows_after_row4 := total_rows_after_row4,
    rows_dropped_all_blank := rows_dropped_all_blank }

/-- Count of present values of one course column, as in
`int(rank_df[c].notna().sum())` (line 83). -/
def countPresent (vs : List (Option ℚ)) : ℕ :=
  (vs.filterMap id).length

/-- Mean of the present values, as in `rank_df[c].mean(skipna=True)`
(line 84): sum of present values over their count, NaN (here `none`)
when no value is present. -/
def meanOf (vs : List (Option ℚ)) : Option ℚ :=
  let xs := vs.filterMap id
  if xs.length = 0 then none else some (xs.sum / (xs.length : ℚ))

/-- Key order used by `sort_values(by="mean_rank", ascending=True,
kind="mergesort")` (line 88): NaN (`none`) sorts after every defined
mean and NaNs keep their relative order (pandas default
`na_position="last"` with a stable sort). -/
def meanLE : Option ℚ → Option ℚ → Bool
  | some a, some b => decide (a ≤ b)
  | some _, none => true
  | none, some _ => false
  | none, none => true

/-- One output row of the summary frame (lines 80-92). -/
structure CourseSummary where
  course_name : String
  n : ℕ
  mean_rank : Option ℚ
  final_rank : ℕ
deriving DecidableEq

/-- The unsorted summary rows (name, n, mean_rank), one per course in
RankTable insertion order (lines 80-86). -/
def summaryRows (rt : RankTable) : List (String × ℕ × Option ℚ) :=
  rt.map (fun p => (p.1, countPresent p.2, meanOf p.2))

/-- Key comparison of two summary rows: compare their mean_rank fields. -/
def rowLE (a b : String × ℕ × Option ℚ) : Bool :=
  meanLE a.2.2 b.2.2

/-- The summary rows after the stable ascending sort on mean_rank
(lines 88-90). -/
def sortedRows (rt : RankTable) : List (String × ℕ × Option ℚ) :=
  (summaryRows rt).mergeSort rowLE

/-- Translation of `summarize_rankings` (lines 79-92): per-course n and
mean_rank, stable sort ascending by mean_rank, then
`final_rank = index + 1` on the sorted frame. -/
def summarize_rankings (rt : RankTable) : List CourseSummary :=
  (sortedRows rt).enum.map
    (fun p => ⟨p.2.1, p.2.2.1, p.2.2.2, p.1 + 1⟩)

/-- Output artifact file names written by `main` (lines 121-123). -/
def OUTPUT_FILES : List String :=
  ["course_rankings.csv", "rank_order.png", "reflection.md"]

/-- Existence check of `load_rank_data` (lines 56-57): a missing input
path raises FileNotFoundError naming the path, before any reading. -/
def load_rank_data_checked (input_exists : Bool) (input_path : String)
    (raw : List (List Cell)) : Except String LoadResult :=
  if input_exists then .ok (load_rank_data raw)
  else .error ("Input file does not exist: " ++ input_path)

/-- Run of `main` (lines 111-135) abstracted to its file outcomes: the
list of output files written and the final result.  The uncaught
FileNotFoundError aborts the run with a nonzero status before any of
the three artifacts is written. -/
def mainRun (input_exists : Bool) (input_path : String)
    (raw : List (List Cell)) : List String × Except String Unit :=
  match load_rank_data_checked input_exists input_path raw with
  | .error e => ([], .error e)
  | .ok res =>
      let _summary := summarize_rankings res.rank_df
      (OUTPUT_FILES, .ok ())

/-- Remainder of the character list after the last occurrence of the
delimiter pattern, when the pattern occurs at all. -/
def afterLast (delim : List Char) : List Char → Option (List Char)
  | [] => none
  | c :: rest =>
      match afterLast delim rest with
      | some r => some r
      | none =>
          if delim.isPrefixOf (c :: rest) then some ((c :: rest).drop delim.length)
          else none

/-- Follows the spec's words for the dynamic course-identity strategy
(claim C8): when the label contains the delimiter pattern, the true
course name is the substring after the last occurrence of the
delimiter, trimmed of surrounding whitespace. -/
def specDeriveName (label delim : String) : String :=
  match afterLast delim.data label.data with
  | some r => String.mk (listTrim r)
  | none => String.mk (listTrim label.data)

/-- Validity of a column-letter string: after trimming and uppercasing
it is a nonempty run of letters A-Z (claim C10's description of the
accepted inputs). -/
def validColLetters (s : String) : Prop :=
  cleanCols s ≠ [] ∧ ∀ c ∈ cleanCols s, 'A' ≤ c ∧ c ≤ 'Z'

instance (s : String) : Decidable (validColLetters s) :=
  inferInstanceAs (Decidable (cleanCols s ≠ [] ∧ ∀ c ∈ cleanCols s, 'A' ≤ c ∧ c ≤ 'Z'))

/-- Decidable equality of results, for evaluating runs on concrete inputs. -/
instance instDecEqExcept {e a : Type} [DecidableEq e] [DecidableEq a] :
    DecidableEq (Except e a) := fun x y =>
  match x, y with
  | .error u, .error v =>
      if h : u = v then .isTrue (by rw [h]) else .isFalse (fun hc => h (by injection hc))
  | .ok u, .ok v =>
      if h : u = v then .isTrue (by rw [h]) else .isFalse (fun hc => h (by injection hc))
  | .error _, .ok _ => .isFalse (fun hc => by injection hc)
  | .ok _, .error _ => .isFalse (fun hc => by injection hc)

/-- Concrete raw table used to separate the two course-identity
strategies: its label row (row index 2, before the data start) carries
the free-text label "X - Foo" in column L. -/
def labelledRaw : List (List Cell) :=
  [[], [],
   List.replicate 11 Cell.blank ++ [Cell.text "X - Foo"],
   List.replicate 11 Cell.blank ++ [Cell.num 1]]

unseal List.merge List.mergeSort Rat.mul Rat.add Rat.inv Rat.sub

section Lemmas

/-- The key order is reflexive. -/
theorem meanLE_refl (m : Option ℚ) : meanLE m m = true := by
  cases m with
  | none => rfl
  | some a => simp [meanLE]

/-- The key order is transitive. -/
theorem meanLE_trans (a b c : Option ℚ) (hab : meanLE a b) (hbc : meanLE b c) :
    meanLE a c = true := by
  cases a with
  | none => cases b with
    | none => exact hbc
    | some vb => exact absurd hab (by simp [meanLE])
  | some va => cases c with
    | none => simp [meanLE]
    | some vc => cases b with
      | none => exact absurd hbc (by simp [meanLE])
      | some vb =>
          simp only [meanLE, decide_eq_true_eq] at hab hbc ⊢
          exact le_trans hab hbc

/-- The key order is total. -/
theorem meanLE_total (a b : Option ℚ) : meanLE a b || meanLE b a := by
  cases a with
  | none => cases b <;> simp [meanLE]
  | some va => cases b with
    | none => simp [meanLE]
    | some vb => simpa [meanLE, Bool.or_eq_true, decide_eq_true_eq] using le_total va vb

/-- The sorted rows are a permutation of the unsorted summary rows. -/
theorem sortedRows_perm (rt : RankTable) : List.Perm (sortedRows rt) (summaryRows rt) :=
  List.mergeSort_perm _ _

/-- The key comparison of rows is transitive. -/
theorem rowLE_trans (a b c : String × ℕ × Option ℚ)
    (hab : rowLE a b) (hbc : rowLE b c) : rowLE a c = true :=
  meanLE_trans a.2.2 b.2.2 c.2.2 hab hbc

/-- The key comparison of rows is total. -/
theorem rowLE_total (a b : String × ℕ × Option ℚ) : rowLE a b || rowLE b a :=
  meanLE_total a.2.2 b.2.2

/-- The sorted rows are pairwise ordered under the key order. -/
theorem sortedRows_pairwise (rt : RankTable) :
    (sortedRows rt).Pairwise (fun a b => rowLE a b = true) :=
  List.sorted_mergeSort rowLE_trans rowLE_total (summaryRows rt)

/-- Lengths line up through sorting and enumeration. -/
theorem sortedRows_length (rt : RankTable) : (sortedRows rt).length = rt.length := by
  rw [(sortedRows_perm rt).length_eq]
  simp [summaryRows]

theorem summarize_length (rt : RankTable) :
    (summarize_rankings rt).length = rt.length := by
  simp [summarize_rankings, sortedRows_length]

/-- Entry of the summary at a sorted position. -/
theorem summarize_getElem (rt : RankTable) (k : ℕ) (hk : k < (summarize_rankings rt).length) :
    (summarize_rankings rt).get ⟨k, hk⟩ =
      ⟨((sortedRows rt).get ⟨k, by simpa [summarize_length, sortedRows_length] using hk⟩).1,
       ((sortedRows rt).get ⟨k, by simpa [summarize_length, sortedRows_length] using hk⟩).2.1,
       ((sortedRows rt).get ⟨k, by simpa [summarize_length, sortedRows_length] using hk⟩).2.2,
       k + 1⟩ := by
  simp [summarize_rankings]

/-- Unsorted summary row at a position. -/
theorem summaryRows_getElem (rt : RankTable) (i : ℕ)
    (hi : i < (summaryRows rt).length) :
    (summaryRows rt).get ⟨i, hi⟩ =
      ((rt.get ⟨i, by simpa [summaryRows] using hi⟩).1,
       countPresent (rt.get ⟨i, by simpa [summaryRows] using hi⟩).2,
       meanOf (rt.get ⟨i, by simpa [summaryRows] using hi⟩).2) := by
  simp [summaryRows]

/-- Every sorted row gives rise to a summary entry with its fields. -/
theorem mem_summarize_of_mem_sortedRows (rt : RankTable)
    (r : String × ℕ × Option ℚ) (hr : r ∈ sortedRows rt) :
    ∃ s ∈ summarize_rankings rt,
      s.course_name = r.1 ∧ s.n = r.2.1 ∧ s.mean_rank = r.2.2 := by
  obtain ⟨k, hk, hkr⟩ := List.mem_iff_getElem.1 hr
  have hk2 : k < (summarize_rankings rt).length := by
    simpa [summarize_length, ← sortedRows_length rt] using hk
  refine ⟨(summarize_rankings rt).get ⟨k, hk2⟩, List.get_mem _ _ _, ?_⟩
  rw [summarize_getElem rt k hk2]
  simp [← hkr]

/-- Every summary entry comes from a sorted position, and its
final_rank is that position plus one. -/
theorem summarize_mem_elim (rt : RankTable) (s : CourseSummary)
    (hs : s ∈ summarize_rankings rt) :
    ∃ (k : ℕ) (hk : k < (sortedRows rt).length),
      s.course_name = ((sortedRows rt).get ⟨k, hk⟩).1 ∧
      s.n = ((sortedRows rt).get ⟨k, hk⟩).2.1 ∧
      s.mean_rank = ((sortedRows rt).get ⟨k, hk⟩).2.2 ∧ s.final_rank = k + 1 := by
  obtain ⟨k, hk, hks⟩ := List.mem_iff_getElem.1 hs
  have hk2 : k < (sortedRows rt).length := by
    simpa [sortedRows_length, ← summarize_length rt] using hk
  refine ⟨k, hk2, ?_⟩
  have h := summarize_getElem rt k hk
  rw [List.get_eq_getElem] at h
  rw [hks] at h
  rw [h]
  exact ⟨rfl, rfl, rfl, rfl⟩

/-- A pair of positions in order yields a two-element sublist. -/
theorem pair_sublist_of_lt {α : Type} {l : List α} {i j : ℕ}
    (hij : i < j) (hj : j < l.length) :
    List.Sublist [l.get ⟨i, lt_trans hij hj⟩, l.get ⟨j, hj⟩] l := by
  have h := @List.map_getElem_sublist α l [⟨i, lt_trans hij hj⟩, ⟨j, hj⟩]
    (by simp [Fin.mk_lt_mk, hij])
  simpa using h

/-- A two-element sublist locates its members at increasing positions. -/
theorem sublist_pair_indices {α : Type} {a b : α} {l : List α}
    (h : List.Sublist [a, b] l) :
    ∃ (k₁ k₂ : ℕ) (h₁ : k₁ < l.length) (h₂ : k₂ < l.length),
      k₁ < k₂ ∧ l.get ⟨k₁, h₁⟩ = a ∧ l.get ⟨k₂, h₂⟩ = b := by
  induction l with
  | nil => cases h
  | cons x xs ih =>
    cases h with
    | cons _ h2 =>
        obtain ⟨k₁, k₂, h₁, h₂, hk, ha, hb⟩ := ih h2
        exact ⟨k₁ + 1, k₂ + 1, by simpa using Nat.succ_lt_succ h₁,
          by simpa using Nat.succ_lt_succ h₂, by omega, by simpa using ha,
          by simpa using hb⟩
    | cons₂ _ h2 =>
        obtain ⟨k, hk, hkb⟩ := List.mem_iff_getElem.1 (List.singleton_sublist.1 h2)
        exact ⟨0, k + 1, by simp, by simpa using Nat.succ_lt_succ hk, by omega,
          rfl, by simpa using hkb⟩

end Lemmas

/-- C9: the Aggregator maps the empty RankTable (no courses) to the
empty CourseSummary sequence and does not fail. -/
theorem summarize_rankings_empty : summarize_rankings [] = [] := rfl

/-- C8 (counterexample): with a sheet whose label row carries the
free-text label "X - Foo" in column L, the extractor still reports the
statically configured names; the dynamically parsed name "Foo"
(substring after the last delimiter, trimmed) appears nowhere, so no
configuration-selected dynamic label-row strategy exists. -/
theorem course_identity_no_dynamic_cex :
    (load_rank_data labelledRaw).rank_df.map Prod.fst = course_names
    ∧ specDeriveName "X - Foo" " - " = "Foo"
    ∧ ¬ "Foo" ∈ (load_rank_data labelledRaw).rank_df.map Prod.fst :=
  ⟨by decide, by decide, by decide⟩

/-- C8 (amended): course identity is resolved only through the static
column-to-name table COURSE_COLUMN_MAP; the derived course names are
the same for every input sheet, so only the static strategy exists and
no dynamic label-row parsing is available or selectable. -/
theorem course_identity_static_only (raw : List (List Cell)) :
    (load_rank_data raw).rank_df.map Prod.fst = course_names := by
  simp only [load_rank_data, List.map_map]
  exact List.enumFrom_map_snd 0 course_names

/-- C5: cell-value coercion never raises: it is total on cells, a
numeric cell yields its number, and an empty or unparseable cell
yields an absent value. -/
theorem to_numeric_coerce_spec :
    (∀ c : Cell, to_numeric_coerce c = none ∨ ∃ q : ℚ, to_numeric_coerce c = some q)
    ∧ (∀ q : ℚ, to_numeric_coerce (Cell.num q) = some q)
    ∧ to_numeric_coerce Cell.blank = none
    ∧ (∀ (s : String) (q : ℚ), parseNumber s = some q →
        to_numeric_coerce (Cell.text s) = some q)
    ∧ (∀ s : String, parseNumber s = none →
        to_numeric_coerce (Cell.text s) = none) := by
  refine ⟨?_, fun q => rfl, rfl, fun s q h => h, fun s h => h⟩
  intro c
  cases hc : to_numeric_coerce c with
  | none => exact Or.inl rfl
  | some q => exact Or.inr ⟨q, rfl⟩

/-- C5 witness: the cell "x" fails to parse and degrades to an absent
value; a numeric cell keeps its value. -/
theorem to_numeric_coerce_spec_witness :
    to_numeric_coerce (Cell.text "x") = none
    ∧ to_numeric_coerce (Cell.num 3) = some 3 :=
  ⟨to_numeric_coerce_spec.2.2.2.2 "x" (by decide), to_numeric_coerce_spec.2.1 3⟩

/-- C7: with a missing input path the run fails with a message naming
the failing path and writes no output artifact; with an existing input
the error path is not taken and the three artifacts are written. -/
theorem mainRun_not_found_spec (input_path : String) (raw : List (List Cell)) :
    (mainRun false input_path raw =
        ([], Except.error ("Input file does not exist: " ++ input_path))
      ∧ ∃ pre, "Input file does not exist: " ++ input_path = pre ++ input_path)
    ∧ (mainRun true input_path raw).1 = OUTPUT_FILES
    ∧ (mainRun true input_path raw).2 = Except.ok () :=
  ⟨⟨rfl, ⟨"Input file does not exist: ", rfl⟩⟩, rfl, rfl⟩

/-- C10: excel_col_to_index strips and uppercases its argument, maps a
nonempty all-letter string to the zero-based bijective base-26 column
index (A is 0, L is 11, AA is 26, with the standard base-26 recurrence
on appended letters), and rejects every other string with a ValueError. -/
theorem excel_col_to_index_spec :
    (∀ s : String, validColLetters s →
        excel_col_to_index s = Except.ok (colVal (cleanCols s) - 1))
    ∧ (∀ s : String, ¬ validColLetters s →
        ∃ e, excel_col_to_index s = Except.error e)
    ∧ excel_col_to_index "A" = Except.ok 0
    ∧ excel_col_to_index "L" = Except.ok 11
    ∧ excel_col_to_index "AA" = Except.ok 26
    ∧ (∀ (cs : List Char) (c : Char),
        colVal (cs ++ [c]) = colVal cs * 26 + (c.toNat - 'A'.toNat + 1))
    ∧ colVal [] = 0 := by
  refine ⟨?_, ?_, by decide, by decide, by decide, ?_, rfl⟩
  · intro s hv
    have hcond : ((cleanCols s).isEmpty
        || (cleanCols s).any (fun ch => !('A' ≤ ch && ch ≤ 'Z'))) = false := by
      rw [Bool.or_eq_false_iff]
      refine ⟨by simpa using hv.1, ?_⟩
      rw [List.any_eq_false]
      intro c hc
      have hb := hv.2 c hc
      simp [hb.1, hb.2]
    simp only [excel_col_to_index]
    rw [hcond]
    rfl
  · intro s hv
    cases hcond : ((cleanCols s).isEmpty
        || (cleanCols s).any (fun ch => !('A' ≤ ch && ch ≤ 'Z'))) with
    | false =>
        exfalso
        apply hv
        rw [Bool.or_eq_false_iff] at hcond
        refine ⟨List.isEmpty_eq_false.1 hcond.1, fun c hc => ?_⟩
        have h2 := List.any_eq_false.1 hcond.2 c hc
        simpa using h2
    | true =>
        refine ⟨"Invalid Excel column letters: " ++ String.mk (cleanCols s), ?_⟩
        show (if ((cleanCols s).isEmpty
            || (cleanCols s).any (fun ch => !('A' ≤ ch && ch ≤ 'Z'))) then
            Except.error ("Invalid Excel column letters: " ++ String.mk (cleanCols s))
          else Except.ok (colVal (cleanCols s) - 1)) =
          Except.error ("Invalid Excel column letters: " ++ String.mk (cleanCols s))
        rw [hcond]
        rfl
  · intro cs c
    simp [colVal, List.foldl_append, colStep]

/-- C10 witness: " ab " is valid after trimming and uppercasing and
yields index 27, while "A1" is invalid and yields a ValueError. -/
theorem excel_col_to_index_spec_witness :
    excel_col_to_index "ab " = Except.ok 27
    ∧ ∃ e, excel_col_to_index "A1" = Except.error e := by
  constructor
  · rw [excel_col_to_index_spec.1 "ab " (by decide)]
    decide
  · exact excel_col_to_index_spec.2.1 "A1" (by decide)

/-- C3: for a RankTable with k courses the summary has exactly one
entry per input course, and the final_rank values are exactly 1..k in
output order: dense, 1-based, no duplicates, no gaps, ties included. -/
theorem summarize_rankings_complete (rt : RankTable) :
    (summarize_rankings rt).length = rt.length
    ∧ List.Perm ((summarize_rankings rt).map (fun s => s.course_name))
        (rt.map Prod.fst)
    ∧ (summarize_rankings rt).map (fun s => s.final_rank) =
        List.range' 1 rt.length := by
  refine ⟨summarize_length rt, ?_, ?_⟩
  · have h1 : (summarize_rankings rt).map (fun s => s.course_name)
        = (sortedRows rt).map (fun r => r.1) := by
      simp only [summarize_rankings, List.map_map]
      rw [show ((fun s : CourseSummary => s.course_name) ∘
          fun p : ℕ × (String × ℕ × Option ℚ) =>
            (⟨p.2.1, p.2.2.1, p.2.2.2, p.1 + 1⟩ : CourseSummary)) =
          ((fun r : String × ℕ × Option ℚ => r.1) ∘ Prod.snd) from rfl]
      rw [← List.map_map]
      rw [show (sortedRows rt).enum = (sortedRows rt).enumFrom 0 from rfl]
      rw [List.enumFrom_map_snd]
    rw [h1]
    have h2 := (sortedRows_perm rt).map (fun r : String × ℕ × Option ℚ => r.1)
    have h3 : (summaryRows rt).map (fun r : String × ℕ × Option ℚ => r.1)
        = rt.map Prod.fst := by
      simp only [summaryRows, List.map_map]
      rfl
    rw [h3] at h2
    exact h2
  · apply List.ext_getElem
    · simp [summarize_length]
    · intro k h1 h2
      simp only [List.getElem_map, List.getElem_range']
      have hk : k < (summarize_rankings rt).length := by simpa using h1
      have hs := summarize_getElem rt k hk
      rw [List.get_eq_getElem] at hs
      rw [hs]
      show k + 1 = 1 + 1 * k
      omega

/-- C2: for every course of a RankTable the Aggregator emits a summary
entry whose n is the count of present values of that course's sequence
and whose mean_rank is the sum of present values divided by n, left
undefined (none) when n = 0. -/
theorem summarize_rankings_mean_counts (rt : RankTable)
    (p : String × List (Option ℚ)) (hp : p ∈ rt) :
    ∃ s ∈ summarize_rankings rt,
      s.course_name = p.1
      ∧ s.n = (p.2.filterMap id).length
      ∧ (s.n = 0 → s.mean_rank = none)
      ∧ (s.n ≠ 0 → s.mean_rank =
          some ((p.2.filterMap id).sum / ((p.2.filterMap id).length : ℚ))) := by
  have hrow : (p.1, countPresent p.2, meanOf p.2) ∈ summaryRows rt :=
    List.mem_map_of_mem _ hp
  have hsorted : (p.1, countPresent p.2, meanOf p.2) ∈ sortedRows rt :=
    (sortedRows_perm rt).mem_iff.2 hrow
  obtain ⟨s, hs, h1, h2, h3⟩ := mem_summarize_of_mem_sortedRows rt _ hsorted
  refine ⟨s, hs, h1, h2, ?_, ?_⟩
  · intro h0
    rw [h3]
    rw [h2] at h0
    simp only [countPresent] at h0
    simp only [meanOf]
    rw [if_pos h0]
  · intro h0
    rw [h3]
    rw [h2] at h0
    simp only [countPresent] at h0
    simp only [meanOf]
    rw [if_neg h0]

/-- C2 witness: the spec's extractor scenario — course A with values
1, absent, absent has n = 1 and mean 1; the hypothesis that A is a
course of the table is discharged on the concrete RankTable. -/
theorem summarize_rankings_mean_counts_witness :
    ∃ s ∈ summarize_rankings
        [("A", [some 1, none, none]), ("B", [some 2, some 3, some 4])],
      s.course_name = "A"
      ∧ s.n = ([some (1 : ℚ), none, none].filterMap id).length
      ∧ (s.n = 0 → s.mean_rank = none)
      ∧ (s.n ≠ 0 → s.mean_rank =
          some (([some (1 : ℚ), none, none].filterMap id).sum /
            (([some (1 : ℚ), none, none].filterMap id).length : ℚ))) :=
  summarize_rankings_mean_counts _ ("A", [some 1, none, none]) (by decide)

/-- C6: the Extractor drops exactly the respondent rows whose every
selected course column is absent, reports the pre-drop respondent-row
count and the dropped-row count, and builds each course's sequence
(hence its n count) only from the kept rows. -/
theorem load_rank_data_audit (raw : List (List Cell)) :
    (load_rank_data raw).total_rows_after_row4 =
        (raw.drop DATA_START_ROW_IDX).length
    ∧ (load_rank_data raw).rows_dropped_all_blank =
        (((raw.drop DATA_START_ROW_IDX).map extractRow).filter
          (fun r => !(rowHasValue r))).length
    ∧ (load_rank_data raw).total_rows_after_row4 =
        (load_rank_data raw).rows_dropped_all_blank +
        (((raw.drop DATA_START_ROW_IDX).map extractRow).filter rowHasValue).length
    ∧ (∀ r ∈ (raw.drop DATA_START_ROW_IDX).map extractRow,
        (rowHasValue r = false ↔ ∀ v ∈ r, v = none))
    ∧ (load_rank_data raw).rank_df.length = course_names.length
    ∧ (∀ (i : ℕ) (hi : i < (load_rank_data raw).rank_df.length),
        ((load_rank_data raw).rank_df.get ⟨i, hi⟩).2 =
          (((raw.drop DATA_START_ROW_IDX).map extractRow).filter rowHasValue).map
            (fun r => r.getD i none)) := by
  have hgen : ∀ l : List (List (Option ℚ)),
      (l.filter rowHasValue).length + (l.filter (fun r => !(rowHasValue r))).length
        = l.length := by
    intro l
    induction l with
    | nil => rfl
    | cons x xs ih =>
        cases hx : rowHasValue x <;> simp [List.filter_cons, hx, ← ih] <;> omega
  have hpart : (((raw.drop DATA_START_ROW_IDX).map extractRow).filter rowHasValue).length
      + (((raw.drop DATA_START_ROW_IDX).map extractRow).filter
          (fun r => !(rowHasValue r))).length
      = ((raw.drop DATA_START_ROW_IDX).map extractRow).length :=
    hgen _
  refine ⟨?_, ?_, ?_, ?_, ?_, ?_⟩
  · simp [load_rank_data]
  · show ((raw.drop DATA_START_ROW_IDX).map extractRow).length
        - (((raw.drop DATA_START_ROW_IDX).map extractRow).filter rowHasValue).length = _
    omega
  · show ((raw.drop DATA_START_ROW_IDX).map extractRow).length = _ + _
    show _ = ((raw.drop DATA_START_ROW_IDX).map extractRow).length
        - (((raw.drop DATA_START_ROW_IDX).map extractRow).filter rowHasValue).length + _
    omega
  · intro r _
    constructor
    · intro h v hv
      have h2 := List.any_eq_false.1 h v hv
      simpa using h2
    · intro h
      rw [rowHasValue, List.any_eq_false]
      intro v hv
      simp [h v hv]
  · simp [load_rank_data]
  · intro i hi
    have hi2 : i < course_names.length := by
      simpa [load_rank_data] using hi
    show ((course_names.enum.map
        (fun p => (p.2, (((raw.drop DATA_START_ROW_IDX).map extractRow).filter
          rowHasValue).map (fun r => r.getD p.1 none)))).get ⟨i, by
            simpa [load_rank_data] using hi⟩).2 = _
    rw [List.get_eq_getElem, List.getElem_map, List.getElem_enum]

/-- C6 witness: a run with one data row carrying a rank and one row
with every rank cell absent reports two pre-drop rows and one dropped
row, and the all-absent row is characterised by the dropped-iff-blank
rule. -/
theorem load_rank_data_audit_witness :
    rowHasValue (extractRow []) = false
    ∧ (load_rank_data [[], [], [],
        List.replicate 11 Cell.blank ++ [Cell.num 1], []]).total_rows_after_row4 = 2
    ∧ (load_rank_data [[], [], [],
        List.replicate 11 Cell.blank ++ [Cell.num 1], []]).rows_dropped_all_blank = 1 := by
  refine ⟨?_, ?_, ?_⟩
  · exact ((load_rank_data_audit [[], [], [],
      List.replicate 11 Cell.blank ++ [Cell.num 1], []]).2.2.2.1
        (extractRow []) (by decide)).2 (by decide)
  · exact (load_rank_data_audit [[], [], [],
      List.replicate 11 Cell.blank ++ [Cell.num 1], []]).1.trans (by decide)
  · exact (load_rank_data_audit [[], [], [],
      List.replicate 11 Cell.blank ++ [Cell.num 1], []]).2.1.trans (by decide)

/-- C4: a course with zero present values does not fail the Aggregator
— it still yields a summary entry, with n = 0 and undefined mean — and
in the sorted output every course with at least one present value
receives a lower final_rank than every all-missing course, so the
all-missing course is placed last. -/
theorem summarize_rankings_missing_last (rt : RankTable)
    (p : String × List (Option ℚ)) (hp : p ∈ rt) (h0 : countPresent p.2 = 0) :
    (∃ s ∈ summarize_rankings rt,
        s.course_name = p.1 ∧ s.n = 0 ∧ s.mean_rank = none)
    ∧ (∀ s ∈ summarize_rankings rt, s.mean_rank = none →
        ∀ t ∈ summarize_rankings rt, t.mean_rank ≠ none →
          t.final_rank < s.final_rank) := by
  constructor
  · have hmean : meanOf p.2 = none := by
      simp only [countPresent] at h0
      simp only [meanOf]
      rw [if_pos h0]
    have hrow : (p.1, countPresent p.2, meanOf p.2) ∈ summaryRows rt :=
      List.mem_map_of_mem _ hp
    have hsorted : (p.1, countPresent p.2, meanOf p.2) ∈ sortedRows rt :=
      (sortedRows_perm rt).mem_iff.2 hrow
    obtain ⟨s, hs, h1, h2, h3⟩ := mem_summarize_of_mem_sortedRows rt _ hsorted
    exact ⟨s, hs, h1, by rw [h2]; exact h0, by rw [h3]; exact hmean⟩
  · intro s hs hsnone t ht htsome
    obtain ⟨ks, hks, hn1, hm1, hsm, hsf⟩ := summarize_mem_elim rt s hs
    obtain ⟨kt, hkt, hn2, hm2, htm, htf⟩ := summarize_mem_elim rt t ht
    rw [hsf, htf]
    have hks2 : ((sortedRows rt).get ⟨ks, hks⟩).2.2 = none := by
      rw [← hsm]; exact hsnone
    have hkt2 : ((sortedRows rt).get ⟨kt, hkt⟩).2.2 ≠ none := by
      rw [← htm]; exact htsome
    rcases lt_trichotomy kt ks with h | h | h
    · omega
    · exfalso
      apply hkt2
      have hfe : (⟨kt, hkt⟩ : Fin (sortedRows rt).length) = ⟨ks, hks⟩ := Fin.ext h
      rw [hfe, hks2]
    · exfalso
      have hpw := List.pairwise_iff_getElem.1 (sortedRows_pairwise rt) ks kt hks hkt h
      simp only [rowLE] at hpw
      rw [List.get_eq_getElem] at hks2 hkt2
      obtain ⟨vb, hvb⟩ := Option.ne_none_iff_exists'.1 hkt2
      rw [hks2, hvb] at hpw
      simp [meanLE] at hpw

/-- C4 witness: in the table with course A all-missing and course B
with one rank, B gets final_rank 1 and the all-missing A is last with
final_rank 2. -/
theorem summarize_rankings_missing_last_witness :
    (⟨"A", 0, none, 2⟩ : CourseSummary) ∈
      summarize_rankings [("A", [none]), ("B", [some 2])]
    ∧ (⟨"B", 1, some 2, 1⟩ : CourseSummary) ∈
      summarize_rankings [("A", [none]), ("B", [some 2])]
    ∧ (1 : ℕ) < 2 := by
  refine ⟨by decide, by decide, ?_⟩
  exact (summarize_rankings_missing_last [("A", [none]), ("B", [some 2])]
      ("A", [none]) (by decide) (by decide)).2
    ⟨"A", 0, none, 2⟩ (by decide) (by decide)
    ⟨"B", 1, some 2, 1⟩ (by decide) (by decide)

/-- C1: the Aggregator output is sorted ascending by mean_rank — any
two defined means at non-decreasing output positions are ordered — and
the stable sort breaks ties by insertion order: of two courses with
equal mean_rank, the one earlier in the RankTable receives the lower
final_rank. -/
theorem summarize_rankings_sorted_stable (rt : RankTable)
    (hnd : (rt.map Prod.fst).Nodup) :
    (∀ (i j : ℕ) (hi : i < (summarize_rankings rt).length)
        (hj : j < (summarize_rankings rt).length), i ≤ j →
        ∀ a b : ℚ, ((summarize_rankings rt).get ⟨i, hi⟩).mean_rank = some a →
          ((summarize_rankings rt).get ⟨j, hj⟩).mean_rank = some b → a ≤ b)
    ∧ (∀ (i j : ℕ) (hi : i < rt.length) (hj : j < rt.length), i < j →
        meanOf (rt.get ⟨i, hi⟩).2 = meanOf (rt.get ⟨j, hj⟩).2 →
        ∀ s ∈ summarize_rankings rt, ∀ t ∈ summarize_rankings rt,
          s.course_name = (rt.get ⟨i, hi⟩).1 →
          t.course_name = (rt.get ⟨j, hj⟩).1 →
          s.final_rank < t.final_rank) := by
  constructor
  · intro i j hi hj hij a b ha hb
    rcases Nat.lt_or_ge i j with hlt | hge
    · have hi2 : i < (sortedRows rt).length := by
        rw [sortedRows_length]; rw [summarize_length] at hi; exact hi
      have hj2 : j < (sortedRows rt).length := by
        rw [sortedRows_length]; rw [summarize_length] at hj; exact hj
      have hpw := List.pairwise_iff_getElem.1 (sortedRows_pairwise rt) i j hi2 hj2 hlt
      simp only [rowLE] at hpw
      rw [summarize_getElem rt i hi] at ha
      rw [summarize_getElem rt j hj] at hb
      have ha2 : ((sortedRows rt).get ⟨i, hi2⟩).2.2 = some a := ha
      have hb2 : ((sortedRows rt).get ⟨j, hj2⟩).2.2 = some b := hb
      rw [List.get_eq_getElem] at ha2 hb2
      rw [ha2, hb2] at hpw
      simpa [meanLE] using hpw
    · have heq : i = j := Nat.le_antisymm hij hge
      subst heq
      have hab : (some a : Option ℚ) = some b := ha.symm.trans hb
      exact le_of_eq (Option.some.inj hab)
  · intro i j hi hj hij hmean s hs t ht hsname htname
    have hi2 : i < (summaryRows rt).length := by simpa [summaryRows] using hi
    have hj2 : j < (summaryRows rt).length := by simpa [summaryRows] using hj
    have hri := summaryRows_getElem rt i hi2
    have hrj := summaryRows_getElem rt j hj2
    have hle : rowLE ((summaryRows rt).get ⟨i, hi2⟩)
        ((summaryRows rt).get ⟨j, hj2⟩) = true := by
      rw [hri, hrj]
      simp only [rowLE]
      have hm2 : meanOf (rt.get ⟨i, by simpa [summaryRows] using hi2⟩).2
          = meanOf (rt.get ⟨j, by simpa [summaryRows] using hj2⟩).2 := hmean
      rw [hm2]
      exact meanLE_refl _
    have hsub := pair_sublist_of_lt hij hj2
    have hstab : List.Sublist
        [(summaryRows rt).get ⟨i, hi2⟩, (summaryRows rt).get ⟨j, hj2⟩]
        (sortedRows rt) :=
      List.pair_sublist_mergeSort rowLE_trans rowLE_total hle hsub
    obtain ⟨k₁, k₂, hk₁, hk₂, hklt, he₁, he₂⟩ := sublist_pair_indices hstab
    obtain ⟨ks, hks, hsn, hx1, hx2, hsf⟩ := summarize_mem_elim rt s hs
    obtain ⟨kt, hkt, htn, hx3, hx4, htf⟩ := summarize_mem_elim rt t ht
    have hnds : ((sortedRows rt).map
        (fun r : String × ℕ × Option ℚ => r.1)).Nodup := by
      rw [List.Perm.nodup_iff
        ((sortedRows_perm rt).map (fun r : String × ℕ × Option ℚ => r.1))]
      have h3 : (summaryRows rt).map (fun r : String × ℕ × Option ℚ => r.1)
          = rt.map Prod.fst := by
        simp only [summaryRows, List.map_map]
        rfl
      rw [h3]
      exact hnd
    have hname_i : ((sortedRows rt).get ⟨k₁, hk₁⟩).1 = (rt.get ⟨i, hi⟩).1 := by
      rw [he₁, hri]
    have hname_j : ((sortedRows rt).get ⟨k₂, hk₂⟩).1 = (rt.get ⟨j, hj⟩).1 := by
      rw [he₂, hrj]
    have hks1 : ks = k₁ := by
      have e1 : ((sortedRows rt).map (fun r : String × ℕ × Option ℚ => r.1)).get
            ⟨ks, by simpa using hks⟩
          = ((sortedRows rt).map (fun r : String × ℕ × Option ℚ => r.1)).get
            ⟨k₁, by simpa using hk₁⟩ := by
        rw [List.get_eq_getElem, List.get_eq_getElem,
          List.getElem_map, List.getElem_map]
        have a1 : ((sortedRows rt).get ⟨ks, hks⟩).1 = (rt.get ⟨i, hi⟩).1 := by
          rw [← hsn]; exact hsname
        rw [List.get_eq_getElem] at a1 hname_i
        rw [a1, hname_i]
      have hfin := (List.Nodup.get_inj_iff hnds).1 e1
      exact congrArg Fin.val hfin
    have hkt1 : kt = k₂ := by
      have e1 : ((sortedRows rt).map (fun r : String × ℕ × Option ℚ => r.1)).get
            ⟨kt, by simpa using hkt⟩
          = ((sortedRows rt).map (fun r : String × ℕ × Option ℚ => r.1)).get
            ⟨k₂, by simpa using hk₂⟩ := by
        rw [List.get_eq_getElem, List.get_eq_getElem,
          List.getElem_map, List.getElem_map]
        have a1 : ((sortedRows rt).get ⟨kt, hkt⟩).1 = (rt.get ⟨j, hj⟩).1 := by
          rw [← htn]; exact htname
        rw [List.get_eq_getElem] at a1 hname_j
        rw [a1, hname_j]
      have hfin := (List.Nodup.get_inj_iff hnds).1 e1
      exact congrArg Fin.val hfin
    rw [hsf, htf, hks1, hkt1]
    omega

/-- C1 witness: the end-to-end tie scenario — courses A, B, C with
mean ranks 2, 1, 1 — yields B before C (equal means, insertion order)
before A, with final ranks 1, 2, 3. -/
theorem summarize_rankings_sorted_stable_witness :
    (⟨"B", 1, some 1, 1⟩ : CourseSummary) ∈
      summarize_rankings [("A", [some 2]), ("B", [some 1]), ("C", [some 1])]
    ∧ (⟨"C", 1, some 1, 2⟩ : CourseSummary) ∈
      summarize_rankings [("A", [some 2]), ("B", [some 1]), ("C", [some 1])]
    ∧ (1 : ℕ) < 2 := by
  refine ⟨by decide, by decide, ?_⟩
  exact (summarize_rankings_sorted_stable
      [("A", [some 2]), ("B", [some 1]), ("C", [some 1])] (by decide)).2
    1 2 (by decide) (by decide) (by decide) (by decide)
    ⟨"B", 1, some 1, 1⟩ (by decide)
    ⟨"C", 1, some 1, 2⟩ (by decide) (by decide) (by decide)

end RankOrder
